import Mathlib

/-!
Verification of the tauri-acp-template backend core: a shallow embedding of
the path guard, plugin cache, permission hub, agent runtime, plugin
installer, terminal manager and agent host, together with theorems about
the properties stated in the specification.

Paths are modelled as an absolute-flag plus a list of components (the shape
Rust's std::path::Path exposes through components/starts_with/join).
Operating-system effects (canonicalize, metadata queries) are modelled as
an explicit environment value, so every theorem quantifies over the
behaviour of the file system.
-/

namespace TauriAcp

/-- Total UTF-8 byte length of a character list (Rust str::len). -/
def utf8Len : List Char → Nat
  | [] => 0
  | c :: cs => c.utf8Size + utf8Len cs

/-- Rust input.trim().is_empty(): true when every character is whitespace. -/
def isBlank (s : String) : Bool :=
  s.data.all (fun c => c.isWhitespace)

/-- Accumulator-based splitting of a character list at path separators,
dropping empty segments (mirrors std::path components of a Unix path). -/
def splitCompsAux : List Char → List Char → List String
  | [], acc => if acc.isEmpty then [] else [String.mk acc.reverse]
  | c :: cs, acc =>
    if c = '/' then
      if acc.isEmpty then splitCompsAux cs []
      else String.mk acc.reverse :: splitCompsAux cs []
    else splitCompsAux cs (c :: acc)

/-- Component list of a path string. -/
def splitComps (s : String) : List String :=
  splitCompsAux s.data []

/-- A file-system path: absolute flag plus components
(model of std::path::PathBuf). -/
structure RPath where
  abs : Bool
  comps : List String
  deriving DecidableEq, Repr

/-- Rust Path::starts_with: component-wise prefix test, absolute flags must
agree. -/
def RPath.startsWith (p base : RPath) : Bool :=
  p.abs == base.abs && base.comps.isPrefixOf p.comps

/-- Rust Path::join: an absolute right operand replaces the base. -/
def RPath.join (base q : RPath) : RPath :=
  if q.abs then q else ⟨base.abs, base.comps ++ q.comps⟩

/-- Rust Path::parent: strips the last component; none for a bare root or
an empty relative path. -/
def RPath.parent (p : RPath) : Option RPath :=
  match p.comps with
  | [] => none
  | _ :: _ => some ⟨p.abs, p.comps.dropLast⟩

/-- Parse a path string into the component model (Unix rules: absolute iff
it begins with a separator). -/
def parsePath (s : String) : RPath :=
  { abs := match s.data with
      | '/' :: _ => true
      | _ => false
    comps := splitComps s }

/-- Error taxonomy of the api layer (api/types.rs), restricted to the
constructors the verified operations produce. -/
inductive ApiError where
  | invalidInput (message : String)
  | pathNotFound (path : String)
  | pathNotDirectory (path : String)
  | ioError (message : String)
  | operationNotFound (operationId : String)
  | pluginInstallInProgress (pluginId : String)
  | pluginNotInstalled (pluginId : String)
  | pluginMissingBinPath (pluginId : String)
  | protocolError (message : String)
  deriving DecidableEq, Repr

/-- Error kind reported by a failed canonicalize call
(std::io::ErrorKind, collapsed to the two cases the code distinguishes). -/
inductive CanonErr where
  | notFound
  | other
  deriving DecidableEq, Repr

/-- The file-system behaviour resolve_path_in_workspace depends on:
Path::canonicalize as a pure oracle. -/
structure OsEnv where
  canon : RPath → Except CanonErr RPath

/-- The path that is actually canonicalized for a given input: the input
itself when absolute, otherwise the input joined under the canonical
root (the two branches of resolve_path_in_workspace). -/
def effCandidate (rootC : RPath) (input : String) : RPath :=
  if (parsePath input).abs then parsePath input else rootC.join (parsePath input)

/-- Embedding of runtime/path.rs resolve_path_in_workspace: canonicalize
the root, canonicalize the (joined) input, and require the canonical root
to be a component prefix of the resolved path. -/
def resolve_path_in_workspace (os : OsEnv) (root : RPath) (input : String) :
    Except ApiError RPath :=
  if isBlank input then .error (.invalidInput "Path cannot be empty")
  else
    match os.canon root with
    | .error _ => .error (.ioError "Failed to canonicalize workspace root")
    | .ok rootC =>
      let inputPath := parsePath input
      if inputPath.abs then
        match os.canon inputPath with
        | .error .notFound =>
          if !(inputPath.startsWith rootC) then
            .error (.invalidInput ("Path escapes workspace root: " ++ input))
          else .error (.pathNotFound input)
        | .error .other => .error (.ioError "Failed to canonicalize path")
        | .ok resolved =>
          if !(resolved.startsWith rootC) then
            .error (.invalidInput ("Path escapes workspace root: " ++ input))
          else .ok resolved
      else
        match os.canon (rootC.join inputPath) with
        | .error .notFound => .error (.pathNotFound input)
        | .error .other => .error (.ioError "Failed to canonicalize path")
        | .ok resolved =>
          if !(resolved.startsWith rootC) then
            .error (.invalidInput ("Path escapes workspace root: " ++ input))
          else .ok resolved

/-- Concrete canonical workspace root used by concrete instantiations. -/
def exRoot : RPath := ⟨true, ["ws"]⟩

/-- Concrete file system in which only the root itself exists: every other
path fails to canonicalize with not-found. -/
def exOs : OsEnv := ⟨fun p => if p = exRoot then .ok exRoot else .error .notFound⟩

/-- Concrete file system in which every path canonicalizes to the root. -/
def wOs : OsEnv := ⟨fun _ => .ok exRoot⟩

/-- The claim that a not-found input always yields PathNotFound, for every
file system, root and non-blank input. -/
def c1PathNotFoundClaim : Prop :=
  ∀ (os : OsEnv) (root : RPath) (input : String) (rootC : RPath),
    os.canon root = .ok rootC → isBlank input = false →
    os.canon (effCandidate rootC input) = .error .notFound →
    resolve_path_in_workspace os root input = .error (.pathNotFound input)

/-- Character class accepted by validate_plugin_id: ASCII lowercase,
ASCII digit, or hyphen. -/
def validIdChar (c : Char) : Bool :=
  c.isLower || c.isDigit || c = '-'

/-- Rust str::contains(\x22..\x22): two consecutive dots occur somewhere. -/
def containsDotDot : List Char → Bool
  | [] => false
  | [_] => false
  | c :: d :: rest => (c = '.' && d = '.') || containsDotDot (d :: rest)

/-- Embedding of plugins/manager.rs PluginManager::validate_plugin_id:
reject empty IDs, IDs over 64 bytes, path separators and dot-dot, any
character outside lowercase/digit/hyphen, and a leading or trailing
hyphen. -/
def validate_plugin_id (plugin_id : String) : Except ApiError Unit :=
  if plugin_id.data.isEmpty then
    .error (.invalidInput "Plugin ID cannot be empty")
  else if 64 < utf8Len plugin_id.data then
    .error (.invalidInput "Plugin ID cannot exceed 64 characters")
  else if plugin_id.data.contains '/' || plugin_id.data.contains '\\' ||
      containsDotDot plugin_id.data then
    .error (.invalidInput "Plugin ID contains invalid path characters")
  else if !(plugin_id.data.all validIdChar) then
    .error (.invalidInput
      "Plugin ID can only contain lowercase letters, numbers, and hyphens")
  else if plugin_id.data.head? == some '-' ||
      plugin_id.data.getLast? == some '-' then
    .error (.invalidInput "Plugin ID cannot start or end with a hyphen")
  else .ok ()

/-- Alphanumeric class of the spec's plugin-ID pattern. -/
def specIdAlnum (c : Char) : Bool :=
  c.isLower || c.isDigit

/-- The spec's plugin-ID pattern, stated from the spec's words: a
lowercase-alphanumeric first character, zero to 62 middle characters from
lowercase/digit/hyphen, and a lowercase-alphanumeric last character
(hence length between 2 and 64). -/
def matchesSpecIdPattern (l : List Char) : Bool :=
  match l with
  | [] => false
  | [_] => false
  | c :: rest =>
    specIdAlnum c &&
      (match rest.getLast? with
        | some d => specIdAlnum d
        | none => false) &&
      rest.dropLast.all validIdChar && l.length ≤ 64

/-- The claim that validate_plugin_id accepts exactly the spec pattern. -/
def c7SpecPatternClaim : Prop :=
  ∀ s : String,
    validate_plugin_id s = .ok () ↔ matchesSpecIdPattern s.data = true

/-- The amended acceptance condition: nonempty, at most 64 characters, all
characters lowercase/digit/hyphen, and no leading or trailing hyphen
(length 1 is allowed when the character is not a hyphen). -/
def amendedIdPattern (l : List Char) : Bool :=
  !l.isEmpty && l.length ≤ 64 && l.all validIdChar &&
    !(l.head? == some '-') && !(l.getLast? == some '-')

/-- A user decision on a permission request (api/types.rs
PermissionDecision). -/
inductive PermissionDecision where
  | allowOnce
  | deny
  deriving DecidableEq, Repr

/-- Pending permission map of the hub: operation ID to the state of the
stored one-shot sender; the Bool records whether the matching receiver is
still alive, so that a send succeeds. -/
def HubPending : Type := String → Option Bool

/-- Embedding of runtime/permissions.rs PermissionHub::respond: remove the
pending sender under the operation ID; absence fails OperationNotFound;
a send to a dropped receiver also fails OperationNotFound. Returns the
call result, the new pending map, and the decision delivered to the
receiver, if any. -/
def hubRespond (pending : HubPending) (operation_id : String)
    (decision : PermissionDecision) :
    Except ApiError Unit × HubPending × Option PermissionDecision :=
  let removed : HubPending :=
    fun k => if k = operation_id then none else pending k
  match pending operation_id with
  | none => (.error (.operationNotFound operation_id), removed, none)
  | some alive =>
    if alive then (.ok (), removed, some decision)
    else (.error (.operationNotFound operation_id), removed, none)

/-- Concrete pending map holding one live request under "op-1". -/
def pending0 : HubPending :=
  fun k => if k = "op-1" then some true else none

/-- Runtime status of an agent (api/types.rs AgentRuntimeStatus). -/
inductive AgentStatus where
  | stopped
  | starting
  | running (session_id : String)
  | errored (message : String)
  deriving DecidableEq, Repr

/-- Rendering of an error used for the Errored status message
(model of ApiError::to_string). -/
def ApiError.toMessage : ApiError → String
  | .invalidInput m => m
  | .pathNotFound p => p
  | .pathNotDirectory p => p
  | .ioError m => m
  | .operationNotFound o => o
  | .pluginInstallInProgress p => p
  | .pluginNotInstalled p => p
  | .pluginMissingBinPath p => p
  | .protocolError m => m

/-- Mutable state of runtime/agents.rs AgentRuntime observed at quiescent
points: status, session ID, and whether a connection handle is stored. -/
structure RuntimeState where
  status : AgentStatus
  session : Option String
  conn : Bool
  deriving DecidableEq, Repr

/-- Model of AgentRuntime::new: Stopped, no session, no connection. -/
def runtimeInit : RuntimeState := ⟨.stopped, none, false⟩

/-- Embedding of AgentRuntime::ensure_started, parameterized by the
outcomes of the two external steps (PluginManager::resolve_bin and
AcpAgent::connect). The fast path returns the cached session; failures
transition to Errored without touching session or connection; success
stores connection and session and transitions to Running. -/
def ensure_started (st : RuntimeState) (resolveRes : Except ApiError Unit)
    (connectRes : Except ApiError String) :
    RuntimeState × Except ApiError String :=
  match st.session with
  | some sid => (st, .ok sid)
  | none =>
    match resolveRes with
    | .error e => ({ st with status := .errored e.toMessage }, .error e)
    | .ok _ =>
      match connectRes with
      | .error e => ({ st with status := .errored e.toMessage }, .error e)
      | .ok s => (⟨.running s, some s, true⟩, .ok s)

/-- Embedding of AgentRuntime::send_prompt: requires a session and a
connection; never mutates the runtime state. -/
def send_prompt (st : RuntimeState) :
    RuntimeState × Except ApiError Unit :=
  match st.session with
  | none => (st, .error (.protocolError "Agent not running"))
  | some _ =>
    if st.conn then (st, .ok ())
    else (st, .error (.protocolError "Agent connection not available"))

/-- Embedding of AgentRuntime::stop_turn: requires a session matching the
argument and a connection; never mutates the runtime state. -/
def stop_turn (st : RuntimeState) (session_id : String) :
    RuntimeState × Except ApiError Unit :=
  match st.session with
  | none => (st, .error (.protocolError "Agent not running"))
  | some current =>
    if current ≠ session_id then
      (st, .error (.invalidInput "Session ID does not match active session"))
    else if st.conn then (st, .ok ())
    else (st, .error (.protocolError "Agent connection not available"))

/-- Quiescent states reachable through the AgentRuntime operations. -/
inductive Reachable : RuntimeState → Prop where
  | init : Reachable runtimeInit
  | ensure (st : RuntimeState) (r : Except ApiError Unit)
      (c : Except ApiError String) :
      Reachable st → Reachable (ensure_started st r c).1
  | prompt (st : RuntimeState) : Reachable st → Reachable (send_prompt st).1
  | stop (st : RuntimeState) (sid : String) :
      Reachable st → Reachable (stop_turn st sid).1

/-- Consistency of the (status, session, connection) triple claimed by the
spec: Running coincides with a stored session and connection, and every
non-Running status coincides with their absence. -/
def Consistent (st : RuntimeState) : Prop :=
  (∀ s, st.status = .running s ↔ (st.session = some s ∧ st.conn = true))
  ∧ ((st.status = .stopped ∨ st.status = .starting ∨
      (∃ m, st.status = .errored m)) → st.session = none ∧ st.conn = false)

/-- Result of runtime/plugin_installer.rs PluginInstaller::start_install:
the command result, the updated installing set, and the background install
task spawned, if any, described by its operation ID, plugin ID and
version. -/
structure InstallStart where
  result : Except ApiError String
  installing : String → Bool
  spawnedTask : Option (String × String × Option String)

/-- Embedding of PluginInstaller::start_install: validate the plugin ID,
fail PluginInstallInProgress when an install of the same plugin is in
flight (before any filesystem work and without spawning a task),
otherwise mark the plugin as installing and spawn the background task.
The fresh operation ID is passed in as a parameter. -/
def start_install (installing : String → Bool) (plugin_id : String)
    (version : Option String) (operation_id : String) : InstallStart :=
  match validate_plugin_id plugin_id with
  | .error e => ⟨.error e, installing, none⟩
  | .ok _ =>
    if installing plugin_id then
      ⟨.error (.pluginInstallInProgress plugin_id), installing, none⟩
    else
      ⟨.ok operation_id,
        fun k => if k = plugin_id then true else installing k,
        some (operation_id, plugin_id, version)⟩

/-- Plugin install metadata persisted in install.json
(plugins/manager.rs PluginInstallMetadata, fields relevant here). -/
structure PluginInstallMetadata where
  installed_version : Option String
  bin_path : Option String
  deriving DecidableEq, Repr

/-- Command specification for launching a plugin adapter
(plugins/manager.rs PluginCommand). -/
structure PluginCommand where
  path : RPath
  args : List String
  env : List (String × String)
  deriving DecidableEq, Repr

/-- The file-system behaviour PluginManager::resolve_bin depends on:
the plugins root directory, existence and kind queries, the install.json
reader, canonicalize, and the metadata query on the canonical binary. -/
structure PluginEnv where
  pluginsRoot : RPath
  pathExists : RPath → Bool
  isDir : RPath → Bool
  readInstallJson : RPath → Except Unit PluginInstallMetadata
  canon : RPath → Except CanonErr RPath
  metaOk : RPath → Bool
  isFile : RPath → Bool

/-- The plugin's own directory under the plugins root. -/
def pluginDirOf (env : PluginEnv) (plugin_id : String) : RPath :=
  env.pluginsRoot.join ⟨false, [plugin_id]⟩

/-- The stored binary path interpreted against the plugin directory: kept
as is when absolute, otherwise joined under the plugin directory. -/
def binFullPath (plugin_dir : RPath) (bin_path_str : String) : RPath :=
  if (parsePath bin_path_str).abs then parsePath bin_path_str
  else plugin_dir.join (parsePath bin_path_str)

/-- Embedding of plugins/manager.rs PluginManager::resolve_bin: validate
the plugin ID, require the plugin directory and install.json to exist,
read the stored bin path, canonicalize both the plugin directory and the
binary, require the canonical binary to be inside the canonical plugin
directory and to be a regular file. -/
def resolve_bin (env : PluginEnv) (plugin_id : String) :
    Except ApiError PluginCommand :=
  match validate_plugin_id plugin_id with
  | .error e => .error e
  | .ok _ =>
    let plugin_dir := pluginDirOf env plugin_id
    if !(env.pathExists plugin_dir) || !(env.isDir plugin_dir) then
      .error (.pluginNotInstalled plugin_id)
    else
      let metadata_path := plugin_dir.join ⟨false, ["install.json"]⟩
      if !(env.pathExists metadata_path) then
        .error (.pluginNotInstalled plugin_id)
      else
        match env.readInstallJson metadata_path with
        | .error _ => .error (.ioError "Failed to read or parse install.json")
        | .ok metadata =>
          match metadata.bin_path with
          | none => .error (.pluginMissingBinPath plugin_id)
          | some bin_path_str =>
            if bin_path_str.data.isEmpty then
              .error (.pluginMissingBinPath plugin_id)
            else
              let bin_path := binFullPath plugin_dir bin_path_str
              if !(env.pathExists bin_path) then
                .error (.pluginMissingBinPath plugin_id)
              else
                match env.canon plugin_dir with
                | .error _ => .error (.pluginMissingBinPath plugin_id)
                | .ok canonical_plugin_dir =>
                  match env.canon bin_path with
                  | .error _ => .error (.pluginMissingBinPath plugin_id)
                  | .ok canonical_bin =>
                    if !(canonical_bin.startsWith canonical_plugin_dir) then
                      .error (.invalidInput
                        ("Plugin binary path must be within plugin directory: "
                          ++ plugin_id))
                    else if !(env.metaOk canonical_bin) then
                      .error (.ioError
                        "Failed to get file metadata for plugin binary")
                    else if !(env.isFile canonical_bin) then
                      .error (.invalidInput
                        ("Plugin binary must be a regular file: " ++ plugin_id))
                    else .ok ⟨canonical_bin, [], []⟩

/-- Concrete plugin environment in which everything exists, canonicalize
is the identity, and every path is a regular file. -/
def okPluginEnv : PluginEnv :=
  { pluginsRoot := ⟨true, ["cache", "plugins"]⟩
    pathExists := fun _ => true
    isDir := fun _ => true
    readInstallJson := fun _ =>
      .ok ⟨some "1.0.0", some "node_modules/.bin/claude-code-acp"⟩
    canon := fun p => .ok p
    metaOk := fun _ => true
    isFile := fun _ => true }

/-- The canonical binary path resolve_bin returns in okPluginEnv for the
plugin "claude-code". -/
def okBinPath : RPath :=
  ⟨true, ["cache", "plugins", "claude-code", "node_modules", ".bin",
    "claude-code-acp"]⟩

/-- Registry of live terminal runs (runtime/terminal.rs
TerminalManager.runs): terminal ID to the control entry, whose single
field is the one-shot kill sender, present until taken. -/
def TerminalRuns : Type := String → Option (Option Unit)

/-- Embedding of TerminalManager::kill: reject a blank ID; an unknown ID
is a no-op returning Ok; a known ID takes the kill sender (if still
present) and fires it. Returns the call result, the updated registry and
whether the kill signal was delivered. -/
def terminalKill (runs : TerminalRuns) (terminal_id : String) :
    Except ApiError Unit × TerminalRuns × Bool :=
  if isBlank terminal_id then
    (.error (.invalidInput "Terminal ID cannot be empty"), runs, false)
  else
    match runs terminal_id with
    | none => (.ok (), runs, false)
    | some ctl =>
      match ctl with
      | some _ =>
        (.ok (), fun k => if k = terminal_id then some none else runs k,
          true)
      | none => (.ok (), runs, false)

/-- Outcome of try_wait observed by the spawn task of a terminal run when
the kill signal arrives. -/
inductive TryWait where
  | exitedAlready
  | stillRunning
  | waitErr
  deriving DecidableEq, Repr

/-- The user_stopped flag of the exit event, as computed by the spawn
task in TerminalManager::spawn_run: set exactly when the kill branch was
selected while the child had not already exited (a try_wait failure is
also treated as still running). -/
def exitUserStopped (killSelected : Bool) (tw : TryWait) : Bool :=
  if killSelected then
    match tw with
    | .exitedAlready => false
    | .stillRunning => true
    | .waitErr => true
  else false

/-- Concrete registry holding one live run "t-1" with its kill sender
still available. -/
def runs0 : TerminalRuns :=
  fun k => if k = "t-1" then some (some ()) else none

/-- The truncation marker appended by append_capped. -/
def truncationMarker : List Char := "\n...[truncated]".data

/-- Longest prefix of a chunk whose UTF-8 byte length fits in the
remaining budget, taken greedily character by character (the
char_indices loop of append_capped). -/
def takeBytes : List Char → Nat → List Char
  | [], _ => []
  | c :: cs, r =>
    if c.utf8Size ≤ r then c :: takeBytes cs (r - c.utf8Size) else []

/-- Embedding of runtime/agent_host.rs append_capped: a buffer already at
or past the cap is left unchanged; a chunk that fits in the remaining
budget is appended whole; otherwise the chunk is truncated at a character
boundary within the budget and the truncation marker is appended. -/
def appendCapped (target chunk : List Char) (cap : Nat) : List Char :=
  if cap ≤ utf8Len target then target
  else
    let remaining := cap - utf8Len target
    if utf8Len chunk ≤ remaining then target ++ chunk
    else target ++ takeBytes chunk remaining ++ truncationMarker

/-- append_capped instrumented with a count of marker appends; its string
component coincides with appendCapped (proved below). -/
def appendCappedCnt (st : List Char × Nat) (chunk : List Char)
    (cap : Nat) : List Char × Nat :=
  if cap ≤ utf8Len st.1 then st
  else
    let remaining := cap - utf8Len st.1
    if utf8Len chunk ≤ remaining then (st.1 ++ chunk, st.2)
    else (st.1 ++ takeBytes chunk remaining ++ truncationMarker, st.2 + 1)

/-- Aggregation of one stream's chunks performed by the terminal_run
reply loop: fold of append_capped starting from the empty buffer. -/
def captureStream (chunks : List (List Char)) (cap : Nat) : List Char :=
  chunks.foldl (fun t c => appendCapped t c cap) []

/-- Instrumented aggregation counting marker appends. -/
def captureStreamCnt (chunks : List (List Char)) (cap : Nat) :
    List Char × Nat :=
  chunks.foldl (fun st c => appendCappedCnt st c cap) ([], 0)

/-- The 64 KiB per-stream capture limit
(agent_host.rs OUTPUT_CAPTURE_LIMIT). -/
def OUTPUT_CAPTURE_LIMIT : Nat := 64 * 1024

/-- The claim that each captured stream stays within the cap (up to the
single appended marker) and that whenever output was lost the marker was
appended. -/
def c8CapClaim : Prop :=
  ∀ chunks : List (List Char),
    utf8Len (captureStream chunks OUTPUT_CAPTURE_LIMIT) ≤
      OUTPUT_CAPTURE_LIMIT + utf8Len truncationMarker
    ∧ (captureStream chunks OUTPUT_CAPTURE_LIMIT ≠ chunks.flatten →
        truncationMarker <:+ captureStream chunks OUTPUT_CAPTURE_LIMIT)

/-- Invariant carried through the instrumented capture fold: the marker
has been appended at most once; while it has not, the buffer is within
the cap; once it has, the buffer is strictly past the cap, within cap
plus marker, and ends with the marker. -/
def CapInv (cap : Nat) (st : List Char × Nat) : Prop :=
  st.2 ≤ 1
  ∧ (st.2 = 0 → utf8Len st.1 ≤ cap)
  ∧ (st.2 = 1 → cap < utf8Len st.1
      ∧ utf8Len st.1 ≤ cap + utf8Len truncationMarker
      ∧ truncationMarker <:+ st.1)

/-- Rust byte slicing s[..n]: the prefix of the string occupying exactly
n bytes, when n falls on a character boundary within the string; none
models the panic Rust raises when the index is out of bounds or not a
boundary. -/
def sliceBytesTo (l : List Char) (n : Nat) : Option (List Char) :=
  if n = 0 then some []
  else
    match l with
    | [] => none
    | c :: cs =>
      if c.utf8Size ≤ n then (sliceBytesTo cs (n - c.utf8Size)).map (c :: ·)
      else none

/-- Embedding of the stderr-excerpt construction of
plugins/manager.rs run_npm_install after a non-zero exit: a lossily
decoded stderr over 500 bytes is truncated at byte offset 500 (a panic
when 500 is not a character boundary, modelled as none) and the marker
"...(truncated)" is appended; shorter stderr is used whole. -/
def stderr_excerpt (stderr : List Char) : Option (List Char) :=
  if 500 < utf8Len stderr then
    (sliceBytesTo stderr 500).map (fun p => p ++ "...(truncated)".data)
  else some stderr

/-- The claim that the excerpt construction is total (never panics). -/
def c10TotalClaim : Prop :=
  ∀ stderr : List Char, (stderr_excerpt stderr).isSome = true

/-- Decoded stderr consisting of 499 one-byte characters followed by one
two-byte character: 501 bytes with no character boundary at offset
500. -/
def badStderr : List Char := List.replicate 499 'a' ++ ['é']

/-- Modelled from the spec: runtime/fs.rs imports
resolve_write_target_in_workspace from runtime/path.rs, but that function
is missing from the sources (only its caller is present); per the spec's
PathGuard section, resolve_write applies the same canonicalize-then-
confine rule as resolve_read except that the target itself may not yet
exist, so the target's parent directory is canonicalized and the file
name re-attached before the boundary check. -/
def resolve_write_target_in_workspace (os : OsEnv) (root : RPath)
    (input : String) : Except ApiError RPath :=
  if isBlank input then .error (.invalidInput "Path cannot be empty")
  else
    match os.canon root with
    | .error _ => .error (.ioError "Failed to canonicalize workspace root")
    | .ok rootC =>
      let candidate := effCandidate rootC input
      match candidate.comps.getLast? with
      | none => .error (.invalidInput "Path must include a parent directory")
      | some fname =>
        match os.canon ⟨candidate.abs, candidate.comps.dropLast⟩ with
        | .error .notFound => .error (.pathNotFound input)
        | .error .other => .error (.ioError "Failed to canonicalize parent")
        | .ok parentC =>
          let resolved := parentC.join ⟨false, [fname]⟩
          if !(resolved.startsWith rootC) then
            .error (.invalidInput ("Path escapes workspace root: " ++ input))
          else .ok resolved

/-- File kind information from symlink_metadata: whether the entry is a
symlink and whether it is a directory. -/
structure SymMeta where
  isSymlink : Bool
  isDir : Bool
  deriving DecidableEq, Repr

/-- Outcome of the rename in replace_file: success, an AlreadyExists
error - in which case the target is removed and the rename retried with
the given outcomes - or another error. -/
inductive RenameRes where
  | ok
  | alreadyExists (removeOk : Bool) (retryOk : Bool)
  | otherErr
  deriving DecidableEq, Repr

/-- Filesystem operations write_text_file can perform, recorded in
order. -/
inductive FsOp where
  | createTemp (p : RPath)
  | writeBytes (p : RPath) (bytes : Nat)
  | renameFile (src dst : RPath)
  | removeFile (p : RPath)
  deriving DecidableEq, Repr

/-- The file-system behaviour write_text_file depends on, beyond
canonicalization: metadata of the parent, symlink metadata of the
target, the fresh temp-file name, and the outcomes of the temp-file
operations and the rename. -/
structure FsEnv where
  canon : RPath → Except CanonErr RPath
  metaIsDir : RPath → Except Unit Bool
  symlinkMeta : RPath → Except CanonErr SymMeta
  tempName : String
  createNewOk : Bool
  writeOk : Bool
  flushOk : Bool
  syncOk : Bool
  renameRes : RenameRes

/-- Embedding of runtime/fs.rs replace_file: rename the temp file onto
the target; on an AlreadyExists error remove the target and rename
again. -/
def replace_file (res : RenameRes) (src dst : RPath) :
    Except ApiError Unit × List FsOp :=
  match res with
  | .ok => (.ok (), [.renameFile src dst])
  | .alreadyExists removeOk retryOk =>
    if !removeOk then
      (.error (.ioError "Failed to replace existing file"), [])
    else if !retryOk then
      (.error (.ioError "Failed to replace file"), [.removeFile dst])
    else (.ok (), [.removeFile dst, .renameFile src dst])
  | .otherErr => (.error (.ioError "Failed to replace file"), [])

/-- The temp-file-then-rename tail of write_text_file: create a fresh
temp file next to the target, write, flush and sync the content, then
replace the target; on a replace failure the temp file is removed. -/
def writeTempAndRename (env : FsEnv) (resolved parent : RPath)
    (content : List Char) (path : String) :
    Except ApiError Nat × List FsOp :=
  let temp := parent.join ⟨false, [env.tempName]⟩
  if !env.createNewOk then
    (.error (.ioError ("Failed to create temp file for " ++ path)), [])
  else if !env.writeOk then
    (.error (.ioError ("Failed to write temp file for " ++ path)),
      [.createTemp temp])
  else if !env.flushOk then
    (.error (.ioError ("Failed to flush temp file for " ++ path)),
      [.createTemp temp, .writeBytes temp (utf8Len content)])
  else if !env.syncOk then
    (.error (.ioError ("Failed to sync temp file for " ++ path)),
      [.createTemp temp, .writeBytes temp (utf8Len content)])
  else
    match replace_file env.renameRes temp resolved with
    | (.ok _, ops) =>
      (.ok (utf8Len content),
        [.createTemp temp, .writeBytes temp (utf8Len content)] ++ ops)
    | (.error e, ops) =>
      (.error e,
        [.createTemp temp, .writeBytes temp (utf8Len content)] ++ ops
          ++ [.removeFile temp])

/-- Embedding of runtime/fs.rs FsManager::write_text_file: resolve the
write target inside the workspace, require an existing parent directory,
reject an existing target that is a symlink or a directory, then write
the content via a fresh temp file in the same directory plus rename.
Returns the result (byte count written) and the filesystem operations
performed. -/
def write_text_file (env : FsEnv) (root : RPath) (path : String)
    (content : List Char) : Except ApiError Nat × List FsOp :=
  match resolve_write_target_in_workspace ⟨env.canon⟩ root path with
  | .error e => (.error e, [])
  | .ok resolved =>
    match resolved.parent with
    | none =>
      (.error (.invalidInput
        ("Path must include a parent directory: " ++ path)), [])
    | some parent =>
      match env.metaIsDir parent with
      | .error _ =>
        (.error (.ioError ("Failed to read metadata for " ++ path)), [])
      | .ok parentIsDir =>
        if !parentIsDir then
          (.error (.invalidInput ("Parent is not a directory: " ++ path)),
            [])
        else
          match env.symlinkMeta resolved with
          | .ok meta =>
            if meta.isSymlink then
              (.error (.invalidInput ("Path is a symlink: " ++ path)), [])
            else if meta.isDir then
              (.error (.invalidInput ("Path is a directory: " ++ path)), [])
            else writeTempAndRename env resolved parent content path
          | .error .notFound =>
            writeTempAndRename env resolved parent content path
          | .error .other =>
            (.error (.ioError ("Failed to read metadata for " ++ path)), [])

/-- Concrete file-system environment in which the workspace root exists,
canonicalize is the identity, the parent is a directory, the target does
not yet exist, and every temp-file operation succeeds. -/
def wFsEnv : FsEnv :=
  { canon := fun p => .ok p
    metaIsDir := fun _ => .ok true
    symlinkMeta := fun _ => .error .notFound
    tempName := ".tmp_write_1"
    createNewOk := true
    writeOk := true
    flushOk := true
    syncOk := true
    renameRes := .ok }

/-! ### Theorems -/

/-- Every character accepted by validIdChar is ASCII and occupies a single
UTF-8 byte. -/
theorem utf8Size_eq_one_of_validIdChar (c : Char) (h : validIdChar c = true) :
    c.utf8Size = 1 := by
  have hval : c.val ≤ 0x7F := by
    simp only [validIdChar, Bool.or_eq_true, decide_eq_true_eq] at h
    rcases h with (h | h) | h
    · simp only [Char.isLower, Bool.and_eq_true, decide_eq_true_eq] at h
      exact UInt32.le_trans h.2 (by decide)
    · simp only [Char.isDigit, Bool.and_eq_true, decide_eq_true_eq] at h
      exact UInt32.le_trans h.2 (by decide)
    · subst h; decide
  simp [Char.utf8Size, hval]

/-- On a list of validIdChar characters the UTF-8 byte length equals the
character count. -/
theorem utf8Len_eq_length_of_valid (l : List Char)
    (h : l.all validIdChar = true) : utf8Len l = l.length := by
  induction l with
  | nil => rfl
  | cons c cs ih =>
    simp only [List.all_cons, Bool.and_eq_true] at h
    simp [utf8Len, utf8Size_eq_one_of_validIdChar c h.1, ih h.2,
      Nat.add_comm]

/-- A list of validIdChar characters contains no dot-dot. -/
theorem not_containsDotDot_of_valid (l : List Char)
    (h : l.all validIdChar = true) : containsDotDot l = false := by
  induction l with
  | nil => rfl
  | cons c cs ih =>
    simp only [List.all_cons, Bool.and_eq_true] at h
    have hc : c ≠ '.' := by
      intro hq; rw [hq] at h; exact absurd h.1 (by decide)
    cases cs with
    | nil => rfl
    | cons d rest =>
      have := ih h.2
      simp only [containsDotDot, Bool.or_eq_false_iff, Bool.and_eq_false_iff]
      exact ⟨Or.inl (by simp [hc]), this⟩

/-- C7, amended. validate_plugin_id accepts exactly the strings of 1 to 64
characters drawn from lowercase letters, digits and hyphens that neither
begin nor end with a hyphen; the separate separator and dot-dot checks are
subsumed by the character class. -/
theorem c7_validate_plugin_id_amended (s : String) :
    validate_plugin_id s = .ok () ↔ amendedIdPattern s.data = true := by
  rw [validate_plugin_id, amendedIdPattern]
  constructor
  · intro h
    split at h
    · exact absurd h (by simp)
    · split at h
      · exact absurd h (by simp)
      · split at h
        · exact absurd h (by simp)
        · split at h
          · exact absurd h (by simp)
          · split at h
            · exact absurd h (by simp)
            · next h1 h2 h3 h4 h5 =>
              have hall : s.data.all validIdChar = true := by
                simpa using h4
              have hlen : s.data.length ≤ 64 := by
                rw [← utf8Len_eq_length_of_valid _ hall]; omega
              have h5' : (s.data.head? == some '-' ||
                  s.data.getLast? == some '-') = false := by
                simpa using h5
              rcases Bool.or_eq_false_iff.mp h5' with ⟨ha, hb⟩
              simp only [Bool.and_eq_true, Bool.not_eq_true']
              exact ⟨⟨⟨⟨by simpa using h1, by simpa using hlen⟩, hall⟩, ha⟩,
                hb⟩
  · intro h
    simp only [Bool.and_eq_true, Bool.not_eq_true'] at h
    obtain ⟨⟨⟨⟨hne, hlen⟩, hall⟩, hhead⟩, hlast⟩ := h
    rw [if_neg (by simpa using hne)]
    rw [if_neg (by
      rw [utf8Len_eq_length_of_valid _ hall]
      simp only [not_lt]
      exact by simpa using hlen)]
    have hnm : ∀ c : Char, validIdChar c = false → c ∉ s.data := by
      intro c hc hmem
      have := List.all_eq_true.mp hall c hmem
      rw [hc] at this
      exact absurd this (by simp)
    rw [if_neg (by
      simp only [Bool.or_eq_true, not_or]
      exact ⟨⟨by simp [hnm '/' (by decide)], by simp [hnm '\\' (by decide)]⟩,
        by simp [not_containsDotDot_of_valid _ hall]⟩)]
    rw [if_neg (by simp [hall])]
    rw [if_neg (by simp [hhead, hlast])]

/-- Counterexample to C7 as stated: the single-character ID "a" is
accepted by validate_plugin_id (the code explicitly allows length 1), but
the spec pattern requires at least two characters. -/
theorem c7_spec_pattern_counterexample : ¬ c7SpecPatternClaim := by
  intro h
  have ha := (h "a").mp rfl
  exact absurd ha (by decide)

/-- Characterization of resolve_path_in_workspace once the root has been
canonicalized and the input is non-blank: both the absolute and the
relative branch canonicalize the effective candidate and apply the same
boundary check; only the not-found error is reported differently. -/
theorem resolve_path_eq (os : OsEnv) (root : RPath) (input : String)
    (rootC : RPath) (h : os.canon root = .ok rootC)
    (hb : isBlank input = false) :
    resolve_path_in_workspace os root input =
      match os.canon (effCandidate rootC input) with
      | .error .notFound =>
        if (parsePath input).abs && !((parsePath input).startsWith rootC) then
          .error (.invalidInput ("Path escapes workspace root: " ++ input))
        else .error (.pathNotFound input)
      | .error .other => .error (.ioError "Failed to canonicalize path")
      | .ok resolved =>
        if !(resolved.startsWith rootC) then
          .error (.invalidInput ("Path escapes workspace root: " ++ input))
        else .ok resolved := by
  rw [resolve_path_in_workspace]
  simp only [hb, Bool.false_eq_true, if_false, h, effCandidate]
  cases habs : (parsePath input).abs with
  | true => simp only [habs, if_true, Bool.true_and]
  | false => simp only [habs, Bool.false_eq_true, if_false, Bool.false_and]

/-- C1, amended. Every Ok result of resolve_path_in_workspace is canonical
(a fixed point of canonicalize) and has the canonical root as a prefix; an
effective candidate that canonicalizes outside the root fails with the
escape InvalidInput error; a not-found candidate fails with PathNotFound,
except that an absolute input lying lexically outside the canonical root
fails with the escape InvalidInput error instead. -/
theorem c1_resolve_read_confinement (os : OsEnv) (root : RPath)
    (input : String)
    (hidem : ∀ a b, os.canon a = .ok b → os.canon b = .ok b) :
    (∀ rootC p, os.canon root = .ok rootC →
        resolve_path_in_workspace os root input = .ok p →
        os.canon p = .ok p ∧ p.startsWith rootC = true)
    ∧ (∀ rootC resolved, os.canon root = .ok rootC → isBlank input = false →
        os.canon (effCandidate rootC input) = .ok resolved →
        resolved.startsWith rootC = false →
        resolve_path_in_workspace os root input =
          .error (.invalidInput ("Path escapes workspace root: " ++ input)))
    ∧ (∀ rootC, os.canon root = .ok rootC → isBlank input = false →
        os.canon (effCandidate rootC input) = .error .notFound →
        resolve_path_in_workspace os root input =
          (if (parsePath input).abs && !((parsePath input).startsWith rootC)
          then .error (.invalidInput ("Path escapes workspace root: " ++ input))
          else .error (.pathNotFound input))) := by
  refine ⟨?_, ?_, ?_⟩
  · intro rootC p h hok
    by_cases hb : isBlank input
    · rw [resolve_path_in_workspace, if_pos hb] at hok
      exact absurd hok (by simp)
    · rw [resolve_path_eq os root input rootC h (eq_false_of_ne_true hb)]
        at hok
      cases hc : os.canon (effCandidate rootC input) with
      | ok resolved =>
        rw [hc] at hok
        dsimp only at hok
        split at hok
        · exact absurd hok (by simp)
        · next hcond =>
          cases hok
          exact ⟨hidem _ _ hc, by simpa using hcond⟩
      | error e =>
        rw [hc] at hok
        cases e
        · dsimp only at hok
          split at hok <;> exact absurd hok (by simp)
        · exact absurd hok (by simp)
  · intro rootC resolved h hb hc hs
    rw [resolve_path_eq os root input rootC h hb, hc]
    dsimp only
    rw [if_pos (by simp [hs])]
  · intro rootC h hb hc
    rw [resolve_path_eq os root input rootC h hb, hc]

/-- Witness for c1_resolve_read_confinement: in the concrete environment
wOs with root exRoot and input "/ws/f", the resolver returns exRoot, which
is canonical and prefixed by the canonical root. -/
theorem c1_resolve_read_confinement_witness :
    wOs.canon exRoot = .ok exRoot ∧ RPath.startsWith exRoot exRoot = true :=
  (c1_resolve_read_confinement wOs exRoot "/ws/f"
      (fun _ b h => by cases h; rfl)).1
    exRoot exRoot rfl (by rfl)

/-- Counterexample to C1 as stated: in the file system exOs only the root
/ws exists; the absolute input "/out/x" does not exist, yet
resolve_path_in_workspace fails with the escape InvalidInput error rather
than PathNotFound, because the nonexistent input lies lexically outside
the root. -/
theorem c1_not_found_counterexample : ¬ c1PathNotFoundClaim := by
  intro hclaim
  have h := hclaim exOs exRoot "/out/x" exRoot rfl rfl (by rfl)
  rw [show resolve_path_in_workspace exOs exRoot "/out/x" =
      .error (.invalidInput "Path escapes workspace root: /out/x") from rfl]
    at h
  simp at h

/-- C4. PermissionHub.respond succeeds at most once per operation ID: a
call succeeds exactly when a pending sender with a live receiver exists,
in which case the decision is delivered and the entry removed; a missing
entry or a dropped receiver yields OperationNotFound, and any second call
for the same operation ID yields OperationNotFound. -/
theorem c4_respond_at_most_once (pending : HubPending) (op : String)
    (d d2 : PermissionDecision) :
    ((hubRespond pending op d).1 = .ok () ↔ pending op = some true)
    ∧ ((hubRespond pending op d).1 = .ok () →
        (hubRespond pending op d).2.2 = some d)
    ∧ ((hubRespond pending op d).2.1 op = none)
    ∧ (pending op = none →
        (hubRespond pending op d).1 = .error (.operationNotFound op)
        ∧ ∀ k, (hubRespond pending op d).2.1 k = pending k)
    ∧ (pending op = some false →
        (hubRespond pending op d).1 = .error (.operationNotFound op)
        ∧ (hubRespond pending op d).2.2 = none)
    ∧ ((hubRespond (hubRespond pending op d).2.1 op d2).1 =
        .error (.operationNotFound op)) := by
  refine ⟨?_, ?_, ?_, ?_, ?_, ?_⟩
  · constructor
    · intro h
      cases hp : pending op with
      | none => rw [hubRespond, hp] at h; exact absurd h (by simp)
      | some alive =>
        cases alive
        · rw [hubRespond, hp] at h
          exact absurd h (by simp)
        · rfl
    · intro h
      rw [hubRespond, h]
      rfl
  · intro h
    cases hp : pending op with
    | none => rw [hubRespond, hp] at h ⊢; exact absurd h (by simp)
    | some alive =>
      cases alive
      · rw [hubRespond, hp] at h; exact absurd h (by simp)
      · rw [hubRespond, hp]
        rfl
  · cases hp : pending op with
    | none => rw [hubRespond, hp]; simp
    | some alive => cases alive <;> (rw [hubRespond, hp]; simp)
  · intro h
    rw [hubRespond, h]
    exact ⟨rfl, fun k => by
      dsimp only
      split
      · next hk => rw [hk, h]
      · rfl⟩
  · intro h
    rw [hubRespond, h]
    exact ⟨rfl, rfl⟩
  · have hnone : (hubRespond pending op d).2.1 op = none := by
      cases hp : pending op with
      | none => rw [hubRespond, hp]; simp
      | some alive => cases alive <;> (rw [hubRespond, hp]; simp)
    rw [hubRespond, hnone]

/-- Witness for c4_respond_at_most_once: responding to the live request
"op-1" in pending0 succeeds, and responding again afterwards fails with
OperationNotFound. -/
theorem c4_respond_at_most_once_witness :
    (hubRespond pending0 "op-1" .allowOnce).1 = .ok ()
    ∧ (hubRespond (hubRespond pending0 "op-1" .allowOnce).2.1 "op-1"
        .deny).1 = .error (.operationNotFound "op-1") :=
  ⟨(c4_respond_at_most_once pending0 "op-1" .allowOnce .deny).1.mpr rfl,
    (c4_respond_at_most_once pending0 "op-1" .allowOnce
      .deny).2.2.2.2.2⟩

/-- C5. Every state of an AgentRuntime reachable through new,
ensure_started, send_prompt and stop_turn, observed at quiescent points,
has a consistent (status, session, connection) triple: Running coincides
with a stored session and connection, and Stopped, Starting and Errored
coincide with their absence. -/
theorem c5_runtime_triple_consistent (st : RuntimeState)
    (h : Reachable st) : Consistent st := by
  induction h with
  | init =>
    constructor
    · intro s
      constructor
      · intro hr; exact absurd hr (by simp [runtimeInit])
      · intro hsc; exact absurd hsc.1 (by simp [runtimeInit])
    · intro _; exact ⟨rfl, rfl⟩
  | ensure st r c _ ih =>
    cases hs : st.session with
    | some sid =>
      rw [ensure_started.eq_def, hs]
      exact ih
    | none =>
      have hconn : st.conn = false := by
        cases hst : st.status with
        | running s =>
          have := (ih.1 s).mp hst
          rw [hs] at this
          exact absurd this.1 (by simp)
        | stopped => exact (ih.2 (Or.inl hst)).2
        | starting => exact (ih.2 (Or.inr (Or.inl hst))).2
        | errored m => exact (ih.2 (Or.inr (Or.inr ⟨m, hst⟩))).2
      rw [ensure_started.eq_def, hs]
      cases r with
      | error e =>
        dsimp only
        exact ⟨fun s => ⟨fun hr => absurd hr (by simp),
            fun hsc => absurd hsc.1 (by simp)⟩,
          fun _ => ⟨rfl, hconn⟩⟩
      | ok u =>
        cases c with
        | error e =>
          dsimp only
          exact ⟨fun s => ⟨fun hr => absurd hr (by simp),
              fun hsc => absurd hsc.1 (by simp)⟩,
            fun _ => ⟨rfl, hconn⟩⟩
        | ok s =>
          dsimp only
          refine ⟨fun s2 => ⟨?_, ?_⟩, ?_⟩
          · intro hr
            simp only [AgentStatus.running.injEq] at hr
            exact ⟨by simp [hr], rfl⟩
          · intro hsc
            have hsess := hsc.1
            simp only [Option.some.injEq] at hsess
            simp [hsess]
          · intro habs
            rcases habs with h1 | h1 | ⟨m, h1⟩ <;> exact absurd h1 (by simp)
  | prompt st _ ih =>
    have heq : (send_prompt st).1 = st := by
      rw [send_prompt]
      cases st.session with
      | none => rfl
      | some s => dsimp only; split <;> rfl
    rw [heq]
    exact ih
  | stop st sid _ ih =>
    have heq : (stop_turn st sid).1 = st := by
      rw [stop_turn]
      cases st.session with
      | none => rfl
      | some s =>
        dsimp only
        split
        · rfl
        · split <;> rfl
    rw [heq]
    exact ih

/-- Witness for c5_runtime_triple_consistent: the freshly created runtime,
and the state after a successful lazy start, are both consistent. -/
theorem c5_runtime_triple_consistent_witness :
    Consistent runtimeInit
    ∧ Consistent (ensure_started runtimeInit (.ok ()) (.ok "sess-1")).1 :=
  ⟨c5_runtime_triple_consistent runtimeInit Reachable.init,
    c5_runtime_triple_consistent _
      (Reachable.ensure runtimeInit (.ok ()) (.ok "sess-1") Reachable.init)⟩

/-- C6. A start_install call for a plugin whose install is already in
flight fails PluginInstallInProgress, leaves the installing set unchanged
and spawns no background task (hence performs no filesystem operation);
a call for a plugin not in flight succeeds and marks it in flight, so an
immediately repeated call fails PluginInstallInProgress: at most one
install per plugin ID runs at a time. -/
theorem c6_install_serialized (installing : String → Bool) (p : String)
    (v v2 : Option String) (op op2 : String)
    (hv : validate_plugin_id p = .ok ()) :
    (installing p = true →
      start_install installing p v op =
        ⟨.error (.pluginInstallInProgress p), installing, none⟩)
    ∧ (installing p = false →
        (start_install installing p v op).result = .ok op
        ∧ (start_install installing p v op).installing p = true
        ∧ (start_install installing p v op).spawnedTask = some (op, p, v))
    ∧ (installing p = false →
        (start_install (start_install installing p v op).installing p v2
          op2).result = .error (.pluginInstallInProgress p)) := by
  refine ⟨?_, ?_, ?_⟩
  · intro hp
    rw [start_install, hv, hp]
    rfl
  · intro hp
    rw [start_install, hv, hp]
    exact ⟨rfl, by simp, rfl⟩
  · intro hp
    have hset : (start_install installing p v op).installing p = true := by
      rw [start_install, hv, hp]
      simp
    rw [start_install, hv, hset]
    rfl

/-- Witness for c6_install_serialized: with no install in flight,
start_install "claude-code" succeeds, and a second call issued while the
first is in flight fails PluginInstallInProgress. -/
theorem c6_install_serialized_witness :
    (start_install (fun _ => false) "claude-code" none "op-1").result =
      .ok "op-1"
    ∧ (start_install
        (start_install (fun _ => false) "claude-code" none "op-1").installing
        "claude-code" none "op-2").result =
      .error (.pluginInstallInProgress "claude-code") :=
  ⟨((c6_install_serialized (fun _ => false) "claude-code" none none
      "op-1" "op-2" (by rfl)).2.1 rfl).1,
    (c6_install_serialized (fun _ => false) "claude-code" none none
      "op-1" "op-2" (by rfl)).2.2 rfl⟩

/-- C2. Whenever resolve_bin returns Ok, the returned path is canonical
(a fixed point of canonicalize), lies inside the canonical plugin
directory, and is a regular file; by contraposition a stored bin path
that canonicalizes outside the plugin directory or is not a regular file
is rejected with an error. -/
theorem c2_resolve_bin_confined (env : PluginEnv) (plugin_id : String)
    (hidem : ∀ a b, env.canon a = .ok b → env.canon b = .ok b) :
    ∀ cmd, resolve_bin env plugin_id = .ok cmd →
      env.canon cmd.path = .ok cmd.path
      ∧ (∀ canonDir, env.canon (pluginDirOf env plugin_id) = .ok canonDir →
          cmd.path.startsWith canonDir = true)
      ∧ env.isFile cmd.path = true := by
  intro cmd hok
  rw [resolve_bin.eq_def] at hok
  dsimp only at hok
  repeat' split at hok
  all_goals try exact absurd hok (by simp only [reduceCtorEq,
    not_false_eq_true])
  rename_i x1 cdir hcdir x2 cbin hcbin hstarts hmok hfile
  cases hok
  refine ⟨hidem _ _ hcbin, ?_, by simpa using hfile⟩
  intro cd hcd
  rw [hcdir] at hcd
  injection hcd with hcd
  rw [← hcd]
  simpa using hstarts

/-- Witness for c2_resolve_bin_confined: in the concrete environment
okPluginEnv, resolving "claude-code" yields okBinPath, which is canonical,
confined to the plugin directory, and a regular file. -/
theorem c2_resolve_bin_confined_witness :
    okPluginEnv.canon okBinPath = .ok okBinPath
    ∧ okBinPath.startsWith (pluginDirOf okPluginEnv "claude-code") = true
    ∧ okPluginEnv.isFile okBinPath = true :=
  have h := c2_resolve_bin_confined okPluginEnv "claude-code"
    (fun _ _ hh => by cases hh; rfl) ⟨okBinPath, [], []⟩ rfl
  ⟨h.1, h.2.1 _ rfl, h.2.2⟩

/-- C9. terminal kill is idempotent: for a non-blank terminal ID of a
live run, kill returns Ok, delivers the one-shot kill signal (so the exit
event of a still-running child reports user_stopped), and a second kill
for the same ID - after the first kill, or after the run has been removed
from the registry - changes no state, delivers nothing, and returns
Ok. -/
theorem c9_terminal_kill_idempotent (runs : TerminalRuns) (tid : String)
    (hne : isBlank tid = false) :
    (∀ u, runs tid = some (some u) →
      (terminalKill runs tid).1 = .ok ()
      ∧ (terminalKill runs tid).2.2 = true
      ∧ exitUserStopped true .stillRunning = true
      ∧ (terminalKill (terminalKill runs tid).2.1 tid).1 = .ok ()
      ∧ (terminalKill (terminalKill runs tid).2.1 tid).2.2 = false
      ∧ (∀ k, (terminalKill (terminalKill runs tid).2.1 tid).2.1 k =
          (terminalKill runs tid).2.1 k))
    ∧ (runs tid = none → terminalKill runs tid = (.ok (), runs, false)) := by
  constructor
  · intro u hu
    have h1 : terminalKill runs tid =
        (.ok (), fun k => if k = tid then some none else runs k, true) := by
      rw [terminalKill, hne, hu]
      rfl
    rw [h1]
    have h2 : terminalKill
        (fun k => if k = tid then some none else runs k) tid =
        (.ok (), fun k => if k = tid then some none else runs k, false) := by
      rw [terminalKill, hne]
      simp
    rw [h2]
    exact ⟨rfl, rfl, rfl, rfl, rfl, fun k => rfl⟩
  · intro hu
    rw [terminalKill, hne, hu]
    rfl

/-- Witness for c9_terminal_kill_idempotent: killing the live run "t-1"
in runs0 delivers the signal, and a second kill delivers nothing, changes
nothing, and still returns Ok. -/
theorem c9_terminal_kill_idempotent_witness :
    (terminalKill runs0 "t-1").2.2 = true
    ∧ (terminalKill (terminalKill runs0 "t-1").2.1 "t-1").1 = .ok ()
    ∧ (terminalKill (terminalKill runs0 "t-1").2.1 "t-1").2.2 = false :=
  have h := (c9_terminal_kill_idempotent runs0 "t-1" rfl).1 () rfl
  ⟨h.2.1, h.2.2.2.1, h.2.2.2.2.1⟩

/-- UTF-8 length distributes over list append. -/
theorem utf8Len_append (l m : List Char) :
    utf8Len (l ++ m) = utf8Len l + utf8Len m := by
  induction l with
  | nil => simp [utf8Len]
  | cons c cs ih => simp [utf8Len, ih]; omega

/-- A list has UTF-8 length zero exactly when it is empty. -/
theorem utf8Len_eq_zero_iff (l : List Char) : utf8Len l = 0 ↔ l = [] := by
  cases l with
  | nil => simp [utf8Len]
  | cons c cs =>
    simp only [utf8Len]
    constructor
    · intro h
      have := Char.utf8Size_pos c
      omega
    · intro h
      exact absurd h (by simp)

/-- UTF-8 length of a replicated single-byte character. -/
theorem utf8Len_replicate (n : Nat) (c : Char) (h : c.utf8Size = 1) :
    utf8Len (List.replicate n c) = n := by
  induction n with
  | zero => rfl
  | succ k ih =>
    simp only [List.replicate_succ, utf8Len, h, ih]
    omega

/-- The greedy byte-bounded prefix fits in the budget. -/
theorem utf8Len_takeBytes_le (c : List Char) (r : Nat) :
    utf8Len (takeBytes c r) ≤ r := by
  induction c generalizing r with
  | nil => simp [takeBytes, utf8Len]
  | cons x xs ih =>
    rw [takeBytes]
    split
    · next hx =>
      have := ih (r - x.utf8Size)
      simp only [utf8Len]
      omega
    · simp [utf8Len]

/-- When the chunk overflows the budget, the greedy prefix misses the
budget by at most three bytes (a UTF-8 character is at most four). -/
theorem utf8Len_takeBytes_lower (c : List Char) (r : Nat)
    (h : r < utf8Len c) : r ≤ utf8Len (takeBytes c r) + 3 := by
  induction c generalizing r with
  | nil => simp [utf8Len] at h
  | cons x xs ih =>
    rw [takeBytes]
    split
    · next hx =>
      rw [utf8Len] at h
      by_cases hr : r - x.utf8Size < utf8Len xs
      · have := ih (r - x.utf8Size) hr
        simp only [utf8Len]
        omega
      · have h1 := utf8Len_takeBytes_le xs (r - x.utf8Size)
        simp only [utf8Len]
        omega
    · next hx =>
      have h4 := Char.utf8Size_le_four x
      simp only [utf8Len]
      omega

/-- The instrumented append computes the same string as append_capped. -/
theorem appendCappedCnt_fst (st : List Char × Nat) (c : List Char)
    (cap : Nat) : (appendCappedCnt st c cap).1 = appendCapped st.1 c cap := by
  rw [appendCappedCnt, appendCapped]
  split
  · rfl
  · dsimp only
    split <;> rfl

/-- The instrumented capture fold computes the same string as the
uninstrumented fold, from any starting state. -/
theorem captureCnt_fst (cap : Nat) (chunks : List (List Char)) :
    ∀ st : List Char × Nat,
      (List.foldl (fun st c => appendCappedCnt st c cap) st chunks).1 =
        List.foldl (fun t c => appendCapped t c cap) st.1 chunks := by
  induction chunks with
  | nil => intro st; rfl
  | cons c cs ih =>
    intro st
    rw [List.foldl_cons, List.foldl_cons, ih, appendCappedCnt_fst]

/-- One instrumented append preserves the capture invariant. -/
theorem capInv_step (cap : Nat) (st : List Char × Nat) (c : List Char)
    (h : CapInv cap st) : CapInv cap (appendCappedCnt st c cap) := by
  obtain ⟨h1, h2, h3⟩ := h
  rw [appendCappedCnt]
  split
  · exact ⟨h1, h2, h3⟩
  · next hlt =>
    have hlt' : utf8Len st.1 < cap := by omega
    have hcnt0 : st.2 = 0 := by
      rcases Nat.le_one_iff_eq_zero_or_eq_one.mp h1 with h0 | h0
      · exact h0
      · exact absurd (h3 h0).1 (by omega)
    dsimp only
    split
    · next hfit =>
      refine ⟨by omega, fun _ => ?_, fun hone => by omega⟩
      rw [utf8Len_append]
      omega
    · next hnofit =>
      have htl := utf8Len_takeBytes_le c (cap - utf8Len st.1)
      have hlow := utf8Len_takeBytes_lower c (cap - utf8Len st.1) (by omega)
      have hm : utf8Len truncationMarker = 15 := by decide
      refine ⟨by omega, fun h0 => by omega, fun _ => ?_⟩
      dsimp only
      rw [utf8Len_append, utf8Len_append]
      refine ⟨by omega, by omega, List.suffix_append _ _⟩

/-- The capture invariant is preserved by the whole fold. -/
theorem capInv_fold (cap : Nat) (chunks : List (List Char)) :
    ∀ st : List Char × Nat, CapInv cap st →
      CapInv cap (List.foldl (fun st c => appendCappedCnt st c cap) st
        chunks) := by
  induction chunks with
  | nil => intro st h; exact h
  | cons c cs ih =>
    intro st h
    rw [List.foldl_cons]
    exact ih _ (capInv_step cap st c h)

/-- When the total output fits in the cap, the capture fold appends
every chunk verbatim and never appends the marker. -/
theorem captureCnt_of_fits (cap : Nat) (chunks : List (List Char)) :
    ∀ st : List Char × Nat,
      utf8Len st.1 + utf8Len chunks.flatten ≤ cap →
      List.foldl (fun st c => appendCappedCnt st c cap) st chunks =
        (st.1 ++ chunks.flatten, st.2) := by
  induction chunks with
  | nil => intro st h; simp
  | cons c cs ih =>
    intro st h
    rw [List.flatten_cons, utf8Len_append] at h
    rw [List.foldl_cons, appendCappedCnt]
    split
    · next hge =>
      have hc0 : utf8Len c = 0 := by omega
      have hcs0 : utf8Len cs.flatten = 0 := by omega
      have hc : c = [] := (utf8Len_eq_zero_iff c).mp hc0
      rw [ih st (by omega), List.flatten_cons, hc]
      simp
    · next hge =>
      dsimp only
      rw [if_pos (by omega)]
      rw [ih (st.1 ++ c, st.2) (by rw [utf8Len_append]; omega)]
      simp [List.flatten_cons]

/-- C8, amended. For every sequence of output chunks, the captured
stream string coincides with the append_capped fold; it is bounded by the
cap plus one 15-byte truncation marker; the marker is appended at most
once, and when it has been appended it terminates the captured string;
and output that fits entirely within the 64 KiB cap is returned verbatim
with no marker. (As stated the claim fails: a chunk arriving once the
buffer has already reached the cap exactly is dropped with no marker.) -/
theorem c8_capture_capped_amended (chunks : List (List Char)) :
    (captureStreamCnt chunks OUTPUT_CAPTURE_LIMIT).1 =
      captureStream chunks OUTPUT_CAPTURE_LIMIT
    ∧ utf8Len (captureStreamCnt chunks OUTPUT_CAPTURE_LIMIT).1 ≤
      OUTPUT_CAPTURE_LIMIT + utf8Len truncationMarker
    ∧ (captureStreamCnt chunks OUTPUT_CAPTURE_LIMIT).2 ≤ 1
    ∧ ((captureStreamCnt chunks OUTPUT_CAPTURE_LIMIT).2 = 1 →
        truncationMarker <:+ (captureStreamCnt chunks
          OUTPUT_CAPTURE_LIMIT).1)
    ∧ (utf8Len chunks.flatten ≤ OUTPUT_CAPTURE_LIMIT →
        captureStreamCnt chunks OUTPUT_CAPTURE_LIMIT = (chunks.flatten, 0)) := by
  have hinv : CapInv OUTPUT_CAPTURE_LIMIT
      (captureStreamCnt chunks OUTPUT_CAPTURE_LIMIT) := by
    rw [captureStreamCnt]
    exact capInv_fold _ chunks ([], 0)
      ⟨by omega, fun _ => by simp [utf8Len], fun h => by simp at h⟩
  obtain ⟨h1, h2, h3⟩ := hinv
  refine ⟨?_, ?_, h1, fun hone => (h3 hone).2.2, ?_⟩
  · rw [captureStreamCnt, captureStream]
    exact captureCnt_fst _ chunks ([], 0)
  · rcases Nat.le_one_iff_eq_zero_or_eq_one.mp h1 with h0 | h0
    · have := h2 h0
      have hm : utf8Len truncationMarker = 15 := by decide
      omega
    · exact (h3 h0).2.1
  · intro hfit
    rw [captureStreamCnt]
    have := captureCnt_of_fits OUTPUT_CAPTURE_LIMIT chunks ([], 0)
      (by simpa [utf8Len] using hfit)
    rw [this]
    simp

/-- Witness for c8_capture_capped_amended: the single chunk "hi" fits in
the cap and is captured verbatim with no marker appended. -/
theorem c8_capture_capped_amended_witness :
    captureStreamCnt [['h', 'i']] OUTPUT_CAPTURE_LIMIT = (['h', 'i'], 0) := by
  have h := (c8_capture_capped_amended [['h', 'i']]).2.2.2.2 (by decide)
  simpa using h

/-- Counterexample to C8 as stated: with a first chunk of exactly 65536
bytes and a second chunk "x", the second chunk is dropped - the captured
string differs from the concatenated output - yet no truncation marker is
ever appended. -/
theorem c8_cap_counterexample : ¬ c8CapClaim := by
  intro hclaim
  have hr : utf8Len (List.replicate 65536 'a') = 65536 :=
    utf8Len_replicate 65536 'a' (by decide)
  have hcap : captureStream [List.replicate 65536 'a', ['x']]
      OUTPUT_CAPTURE_LIMIT = List.replicate 65536 'a' := by
    rw [captureStream, List.foldl_cons, List.foldl_cons, List.foldl_nil]
    have h0 : utf8Len ([] : List Char) = 0 := rfl
    have s1 : appendCapped [] (List.replicate 65536 'a')
        OUTPUT_CAPTURE_LIMIT = List.replicate 65536 'a' := by
      rw [appendCapped]
      rw [if_neg (by rw [h0]; decide)]
      dsimp only
      rw [if_pos (by rw [hr, h0]; decide)]
      rfl
    rw [s1, appendCapped, if_pos (by rw [hr]; decide)]
  have h2 := (hclaim [List.replicate 65536 'a', ['x']]).2
  rw [hcap] at h2
  have hne : List.replicate 65536 'a' ≠
      ([List.replicate 65536 'a', ['x']] : List (List Char)).flatten := by
    intro heq
    have hlen := congrArg utf8Len heq
    rw [List.flatten_cons, List.flatten_cons, List.flatten_nil,
      utf8Len_append, utf8Len_append, hr] at hlen
    have hx : utf8Len ['x'] = 1 := by decide
    rw [hx, show utf8Len ([] : List Char) = 0 from rfl] at hlen
    omega
  have hsuf := h2 hne
  obtain ⟨t, ht⟩ := hsuf
  have hmem : ']' ∈ List.replicate 65536 'a' := by
    rw [← ht]
    exact List.mem_append_right t (by decide)
  have := List.eq_of_mem_replicate hmem
  exact absurd this (by decide)

/-- Slicing past a run of one-byte characters consumes them one per
byte. -/
theorem sliceBytesTo_replicate_add (k m : Nat) (rest : List Char) :
    sliceBytesTo (List.replicate k 'a' ++ rest) (k + m) =
      (sliceBytesTo rest m).map (List.replicate k 'a' ++ ·) := by
  induction k with
  | zero =>
    simp only [List.replicate, List.nil_append, Nat.zero_add]
    cases sliceBytesTo rest m <;> simp
  | succ j ih =>
    rw [List.replicate_succ, List.cons_append, sliceBytesTo]
    rw [if_neg (by omega)]
    have hsz : ('a').utf8Size = 1 := by decide
    rw [hsz]
    rw [if_pos (by omega)]
    rw [show j + 1 + m - 1 = j + m by omega, ih]
    cases sliceBytesTo rest m <;> simp [List.replicate_succ]

/-- C10 fails on the code: on a stderr of 499 one-byte characters
followed by a two-byte character (501 bytes), byte offset 500 is not a
character boundary, so the slice panics; the excerpt construction is not
total. -/
theorem c10_excerpt_panics :
    stderr_excerpt badStderr = none
    ∧ 500 < utf8Len badStderr
    ∧ ¬ c10TotalClaim := by
  have hr : utf8Len (List.replicate 499 'a') = 499 :=
    utf8Len_replicate 499 'a' (by decide)
  have hlen : utf8Len badStderr = 501 := by
    rw [badStderr, utf8Len_append, hr]
    decide
  have hslice : sliceBytesTo badStderr 500 = none := by
    rw [badStderr, show (500 : Nat) = 499 + 1 from rfl,
      sliceBytesTo_replicate_add]
    rfl
  have hnone : stderr_excerpt badStderr = none := by
    rw [stderr_excerpt, if_pos (by omega), hslice]
    rfl
  refine ⟨hnone, by omega, ?_⟩
  intro hclaim
  have := hclaim badStderr
  rw [hnone] at this
  exact absurd this (by simp)

/-- Characterization of the success of the temp-file-then-rename tail:
the reported byte count is the content's byte length and the operations
are create-temp, write, then a rename of the temp file onto the target
(possibly preceded by removing an existing target). -/
theorem writeTempAndRename_ok (env : FsEnv) (resolved parent : RPath)
    (content : List Char) (path : String) :
    ∀ n, (writeTempAndRename env resolved parent content path).1 = .ok n →
      n = utf8Len content
      ∧ ((writeTempAndRename env resolved parent content path).2 =
          [.createTemp (parent.join ⟨false, [env.tempName]⟩),
            .writeBytes (parent.join ⟨false, [env.tempName]⟩) n,
            .renameFile (parent.join ⟨false, [env.tempName]⟩) resolved]
        ∨ (writeTempAndRename env resolved parent content path).2 =
          [.createTemp (parent.join ⟨false, [env.tempName]⟩),
            .writeBytes (parent.join ⟨false, [env.tempName]⟩) n,
            .removeFile resolved,
            .renameFile (parent.join ⟨false, [env.tempName]⟩) resolved]) := by
  intro n hok
  rw [writeTempAndRename.eq_def] at hok
  dsimp only at hok
  rw [writeTempAndRename.eq_def]
  dsimp only
  split at hok
  · exact absurd hok (by simp)
  · split at hok
    · exact absurd hok (by simp)
    · split at hok
      · exact absurd hok (by simp)
      · split at hok
        · exact absurd hok (by simp)
        · next h1 h2 h3 h4 =>
          rw [if_neg h1, if_neg h2, if_neg h3, if_neg h4]
          rw [replace_file.eq_def] at hok ⊢
          cases hr : env.renameRes with
          | ok =>
            rw [hr] at hok
            dsimp only at hok ⊢
            injection hok with hok
            subst hok
            exact ⟨rfl, Or.inl rfl⟩
          | alreadyExists removeOk retryOk =>
            rw [hr] at hok
            dsimp only at hok ⊢
            by_cases h5 : (!removeOk) = true
            · rw [if_pos h5] at hok ⊢
              dsimp only at hok
              exact absurd hok (by simp)
            · rw [if_neg h5] at hok ⊢
              by_cases h6 : (!retryOk) = true
              · rw [if_pos h6] at hok ⊢
                dsimp only at hok
                exact absurd hok (by simp)
              · rw [if_neg h6] at hok ⊢
                dsimp only at hok ⊢
                injection hok with hok
                subst hok
                exact ⟨rfl, Or.inr rfl⟩
          | otherErr =>
            rw [hr] at hok
            dsimp only at hok
            exact absurd hok (by simp)

/-- C3. write_text_file confines every write to the canonical workspace
root: any resolved target lies under the canonical root; when the target
exists and is a symlink or a directory the call fails with InvalidInput
and performs no filesystem operation, leaving the target unchanged; and
a successful call returns the byte length of the content and performs
exactly a temp-file creation and write in the target's own parent
directory (which was verified to be a directory) followed by a rename of
that temp file onto the target. -/
theorem c3_write_text_file_safe (env : FsEnv) (root : RPath)
    (path : String) (content : List Char) :
    (∀ rootC resolved, env.canon root = .ok rootC →
      resolve_write_target_in_workspace ⟨env.canon⟩ root path =
        .ok resolved →
      resolved.startsWith rootC = true)
    ∧ (∀ resolved parent meta,
        resolve_write_target_in_workspace ⟨env.canon⟩ root path =
          .ok resolved →
        resolved.parent = some parent →
        env.metaIsDir parent = .ok true →
        env.symlinkMeta resolved = .ok meta →
        (meta.isSymlink = true ∨ meta.isDir = true) →
        (∃ m, (write_text_file env root path content).1 =
          .error (.invalidInput m))
        ∧ (write_text_file env root path content).2 = [])
    ∧ (∀ n, (write_text_file env root path content).1 = .ok n →
        n = utf8Len content
        ∧ ∃ resolved parent,
            resolve_write_target_in_workspace ⟨env.canon⟩ root path =
              .ok resolved
            ∧ resolved.parent = some parent
            ∧ env.metaIsDir parent = .ok true
            ∧ (parent.join ⟨false, [env.tempName]⟩).parent = some parent
            ∧ ((write_text_file env root path content).2 =
                [.createTemp (parent.join ⟨false, [env.tempName]⟩),
                  .writeBytes (parent.join ⟨false, [env.tempName]⟩) n,
                  .renameFile (parent.join ⟨false, [env.tempName]⟩)
                    resolved]
              ∨ (write_text_file env root path content).2 =
                [.createTemp (parent.join ⟨false, [env.tempName]⟩),
                  .writeBytes (parent.join ⟨false, [env.tempName]⟩) n,
                  .removeFile resolved,
                  .renameFile (parent.join ⟨false, [env.tempName]⟩)
                    resolved])) := by
  have htemp : ∀ parent : RPath,
      (parent.join ⟨false, [(env.tempName : String)]⟩).parent =
        some parent := by
    intro parent
    rw [RPath.join]
    rw [if_neg (by simp)]
    rw [RPath.parent.eq_def]
    dsimp only
    rw [List.dropLast_concat]
    obtain ⟨x, xs, hxx⟩ :
        ∃ x xs, parent.comps ++ [env.tempName] = x :: xs := by
      cases parent.comps with
      | nil => exact ⟨_, _, rfl⟩
      | cons a as => exact ⟨_, _, rfl⟩
    rw [hxx]
  refine ⟨?_, ?_, ?_⟩
  · intro rootC resolved hroot hok
    rw [resolve_write_target_in_workspace] at hok
    split at hok
    · exact absurd hok (by simp)
    · rw [show (⟨env.canon⟩ : OsEnv).canon = env.canon from rfl, hroot]
        at hok
      dsimp only at hok
      split at hok
      · exact absurd hok (by simp)
      · split at hok
        · exact absurd hok (by simp)
        · exact absurd hok (by simp)
        · split at hok
          · exact absurd hok (by simp)
          · next hcheck =>
            injection hok with hok
            rw [← hok]
            simpa using hcheck
  · intro resolved parent meta hres hpar hdir hsym hbad
    rw [write_text_file.eq_def, hres]
    dsimp only
    rw [hpar]
    dsimp only
    rw [hdir]
    dsimp only
    rw [if_neg (by simp)]
    rw [hsym]
    dsimp only
    rcases hbad with hb | hb
    · rw [if_pos hb]
      exact ⟨⟨_, rfl⟩, rfl⟩
    · by_cases hs : meta.isSymlink = true
      · rw [if_pos hs]
        exact ⟨⟨_, rfl⟩, rfl⟩
      · rw [if_neg hs, if_pos hb]
        exact ⟨⟨_, rfl⟩, rfl⟩
  · intro n hok
    rw [write_text_file.eq_def] at hok
    split at hok
    · exact absurd hok (by simp)
    · next resolved hres =>
      split at hok
      · exact absurd hok (by simp)
      · next parent hpar =>
        split at hok
        · exact absurd hok (by simp)
        · next parentIsDir hdir =>
          split at hok
          · exact absurd hok (by simp)
          · next hpd =>
            have hpd' : parentIsDir = true := by simpa using hpd
            split at hok
            · next meta hsym =>
              split at hok
              · exact absurd hok (by simp)
              · split at hok
                · exact absurd hok (by simp)
                · next hs1 hs2 =>
                  obtain ⟨hn, hops⟩ :=
                    writeTempAndRename_ok env resolved parent content path
                      n hok
                  have hw : write_text_file env root path content =
                      writeTempAndRename env resolved parent content
                        path := by
                    rw [write_text_file.eq_def, hres]
                    dsimp only
                    rw [hpar]
                    dsimp only
                    rw [hdir]
                    dsimp only
                    rw [if_neg hpd]
                    rw [hsym]
                    dsimp only
                    rw [if_neg hs1, if_neg hs2]
                  refine ⟨hn, resolved, parent, hres, hpar,
                    by rw [hdir, hpd'], htemp parent, ?_⟩
                  rw [hw]
                  exact hops
            · next hsym =>
              obtain ⟨hn, hops⟩ :=
                writeTempAndRename_ok env resolved parent content path n hok
              have hw : write_text_file env root path content =
                  writeTempAndRename env resolved parent content path := by
                rw [write_text_file.eq_def, hres]
                dsimp only
                rw [hpar]
                dsimp only
                rw [hdir]
                dsimp only
                rw [if_neg hpd]
                rw [hsym]
              refine ⟨hn, resolved, parent, hres, hpar,
                by rw [hdir, hpd'], htemp parent, ?_⟩
              rw [hw]
              exact hops
            · exact absurd hok (by simp)

/-- Witness for c3_write_text_file_safe: in the concrete environment
wFsEnv, writing "hi" to "f.txt" under the root /ws resolves to
/ws/f.txt, which is confined under the root, and reports two bytes
written. -/
theorem c3_write_text_file_safe_witness :
    RPath.startsWith ⟨true, ["ws", "f.txt"]⟩ exRoot = true
    ∧ (2 : Nat) = utf8Len ['h', 'i'] :=
  ⟨(c3_write_text_file_safe wFsEnv exRoot "f.txt" ['h', 'i']).1 exRoot
      ⟨true, ["ws", "f.txt"]⟩ rfl (by rfl),
    ((c3_write_text_file_safe wFsEnv exRoot "f.txt" ['h', 'i']).2.2 2
      (by rfl)).1⟩

end TauriAcp
